import Mathlib

/-!
Shallow embedding of the PDF-viewer search store (`PdfViewerStore`) and its
text-search pipeline, together with theorems about its behaviour.

Strings are modelled as `List Char` (JS strings with code-unit indexing).
JS `Record<number, T>` objects are modelled as association lists with
numeric keys; the only operations the store performs on them are lookup,
whole-record replacement and single-key functional update (object spread),
which `setRec` mirrors while keeping keys sorted and duplicate-free, the
iteration order `Object.entries` exposes for integer-like keys.
-/

namespace Pdf

/-- JS strings as lists of characters. -/
abbrev Str := List Char

/-- `{start, end}` half-open character range of one phrase match inside a
page's joined text. -/
structure MatchRange where
  start : Nat
  stop : Nat
  deriving Repr, DecidableEq

/-- `{start, end}` half-open character range of one text fragment inside a
page's joined text. -/
structure ItemRange where
  start : Nat
  stop : Nat
  deriving Repr, DecidableEq

/-- Whitespace as matched by the JS `\s` class and trimmed by
`String.prototype.trim`. -/
def isWs (c : Char) : Bool :=
  c = ' ' || c = '\t' || c = '\n' || c = '\x0b' || c = '\x0c' || c = '\r' ||
  c = ' ' || c = ' ' ||
  (0x2000 ≤ c.toNat && c.toNat ≤ 0x200a) ||
  c = ' ' || c = ' ' || c = ' ' || c = ' ' ||
  c = '　' || c = '﻿'

/-- `value.trim()`: strip leading and trailing whitespace. -/
def jsTrim (s : Str) : Str :=
  ((s.dropWhile isWs).reverse.dropWhile isWs).reverse

/-- `term.split(/\s+/).filter((p) => p.length > 0)`: the maximal runs of
non-whitespace characters, in order. -/
def splitOnWs : Str → Str → List Str
  | [], acc => if acc.isEmpty then [] else [acc.reverse]
  | c :: rest, acc =>
      if isWs c then
        if acc.isEmpty then splitOnWs rest [] else acc.reverse :: splitOnWs rest []
      else
        splitOnWs rest (c :: acc)

/-- The regex metacharacters escaped by `escapeRegex`
(the class `[.*+?^$\x7b\x7d()|[\]\\]`). -/
def isMeta (c : Char) : Bool :=
  c = '.' || c = '*' || c = '+' || c = '?' || c = '^' || c = '$' ||
  c = '\x7b' || c = '\x7d' || c = '(' || c = ')' || c = '|' ||
  c = '[' || c = ']' || c = '\\'

/-- `value.replace(/[.*+?^$\x7b\x7d()|[\]\\]/g, "\\$&")`: put a backslash in
front of every regex metacharacter. -/
def escapeRegex (value : Str) : Str :=
  value.flatMap (fun c => if isMeta c then ['\\', c] else [c])

/-- Build the regex source string of `recomputeMatches`:
escape each whitespace-separated part of the term, then join the escaped
parts with the two-character escape `\s` followed by `+`. -/
def buildPattern (term : Str) : Str :=
  (List.intercalate ['\\', 's', '+'] ((splitOnWs term []).map escapeRegex))

/-- The fragment of regex syntax that the patterns built by
`buildPattern` use: literal characters and `\s+` (one-or-more whitespace). -/
inductive Tok where
  | lit (c : Char)
  | wsPlus
  deriving Repr, DecidableEq

/-- Parse a regex source string of the shape produced by `buildPattern` into
tokens. Any construct outside that shape — an unescaped metacharacter, a
trailing backslash, or a `\s` class without `+` — is rejected with `none`,
standing for regex behaviour this model does not cover. -/
def tokenizePattern : Str → Option (List Tok)
  | [] => some []
  | c :: rest =>
      if c = '\\' then
        match rest with
        | [] => none
        | d :: rest2 =>
            if d = 's' then
              match rest2 with
              | [] => none
              | e :: rest3 =>
                  if e = '+' then (tokenizePattern rest3).map (fun ts => Tok.wsPlus :: ts)
                  else none
            else (tokenizePattern rest2).map (fun ts => Tok.lit d :: ts)
      else if isMeta c then none
      else (tokenizePattern rest).map (fun ts => Tok.lit c :: ts)

/-- Case-insensitive character comparison (the `i` regex flag). -/
def eqCI (c d : Char) : Bool :=
  c.toLower = d.toLower

/-- Match a token list against a prefix of `s`, returning the number of
characters consumed. `\s+` is greedy with backtracking, exactly the JS
engine's order: longer whitespace runs are tried first. -/
def matchToks : List Tok → Str → Option Nat
  | [], _ => some 0
  | Tok.lit _ :: _, [] => none
  | Tok.lit c :: ts, d :: rest =>
      if eqCI c d then (matchToks ts rest).map (fun n => n + 1) else none
  | Tok.wsPlus :: _, [] => none
  | Tok.wsPlus :: ts, d :: rest =>
      if isWs d then
        match matchToks (Tok.wsPlus :: ts) rest with
        | some n => some (n + 1)
        | none => (matchToks ts rest).map (fun n => n + 1)
      else none

/-- One step of the global-flag `exec` loop: the next match at or after
position `pos` is at the least position where the token list matches.
`fuel` bounds the loop; `text.length + 1` steps always suffice because every
match of a pattern built from a non-empty term consumes at least one
character (a zero-length match would make the `while (exec)` loop in
`recomputeMatches` spin forever; it cannot arise from `buildPattern` of a
non-empty trimmed term). -/
def scanMatches (toks : List Tok) (text : Str) : Nat → Nat → List MatchRange
  | _, 0 => []
  | pos, fuel + 1 =>
      if pos > text.length then []
      else
        match matchToks toks (text.drop pos) with
        | some len =>
            if len = 0 then MatchRange.mk pos pos :: scanMatches toks text pos fuel
            else MatchRange.mk pos (pos + len) :: scanMatches toks text (pos + len) fuel
        | none => scanMatches toks text (pos + 1) fuel

/-- All matches of the pattern built from `term` in `text`, in the order the
global regex scan reports them (leftmost-first, non-overlapping). `none`
would mean the built pattern fell outside the modelled regex fragment; the
theorem `buildPattern_tokenizes` shows this never happens, so the `getD`
default is dead code mirroring the fact that `new RegExp` never throws here. -/
def computeRanges (term : Str) (text : Str) : List MatchRange :=
  match tokenizePattern (buildPattern term) with
  | some toks => scanMatches toks text 0 (text.length + 1)
  | none => []

/-! ### JS `Record<number, T>` objects -/

/-- A JS object with numeric keys, as the ascending-key association list
that `Object.entries` iterates. -/
abbrev Rec (α : Type) := List (Nat × α)

/-- `obj[k]`, as an `Option`. -/
def lookupRec {α : Type} : Rec α → Nat → Option α
  | [], _ => none
  | (k, v) :: rest, key => if key = k then some v else lookupRec rest key

/-- The object spread `\x7b ...obj, [k]: v \x7d`: replace the binding of `k`
or insert it, keeping keys in ascending order. -/
def setRec {α : Type} : Rec α → Nat → α → Rec α
  | [], key, v => [(key, v)]
  | (k, w) :: rest, key, v =>
      if key = k then (key, v) :: rest
      else if key < k then (key, v) :: (k, w) :: rest
      else (k, w) :: setRec rest key v

/-- `Object.keys`. -/
def keysOf {α : Type} (m : Rec α) : List Nat := m.map Prod.fst

/-! ### The store -/

/-- One entry of pdf.js `textContent.items`: `\x7b str?: string \x7d`. -/
abbrev TextItem := Option Str

/-- The fields of `PdfViewerStore` that the search pipeline reads or
writes. `currentMatchIndex` is `number | null`, kept as `Option Int`
because the JS field is an arbitrary number before re-clamping. -/
structure Store where
  fileData : Option Str
  totalDocumentPages : Option Nat
  currentPage : Nat
  searchTerm : Str
  submittedSearchTerm : Str
  pageMatches : Rec Nat
  pageTexts : Rec (List Str)
  pageJoinedTexts : Rec Str
  pageMatchRanges : Rec (List MatchRange)
  pageTextItemRanges : Rec (List ItemRange)
  currentMatchIndex : Option Int
  isProcessingAllPages : Bool
  deriving Repr, DecidableEq

/-- `const PAGE_PROCESSING_BATCH_SIZE = 5`. -/
def PAGE_PROCESSING_BATCH_SIZE : Nat := 5

/-- `get totalMatches()`: sum of the per-page match counts. -/
def totalMatches (st : Store) : Nat :=
  (st.pageMatches.map Prod.snd).sum

/-- Result of `processTextItems`. -/
structure ProcessedText where
  textArray : List Str
  joinedText : Str
  itemRanges : List ItemRange
  deriving Repr, DecidableEq

/-- The span-building loop of `processTextItems`: each fragment occupies
`[pos, pos + length)`, and the position advances by one extra slot for the
space separator after every fragment but the last. -/
def buildItemRanges : List Str → Nat → List ItemRange
  | [], _ => []
  | [t], pos => [ItemRange.mk pos (pos + t.length)]
  | t :: u :: rest, pos =>
      ItemRange.mk pos (pos + t.length) :: buildItemRanges (u :: rest) (pos + t.length + 1)

/-- `processTextItems`: read `item.str ?? ""` from each item, join the
fragments with single spaces (`joinedParts.join(" ")`), and record each
fragment's character span in the joined string. -/
def processTextItems (items : List TextItem) : ProcessedText :=
  let textArray := items.map (fun i => i.getD [])
  { textArray := textArray
    joinedText := List.intercalate [' '] textArray
    itemRanges := buildItemRanges textArray 0 }

/-- `updatePageTextData`: store the processed text of one page. -/
def updatePageTextData (st : Store) (pageNumber : Nat) (pt : ProcessedText) : Store :=
  { st with
    pageTexts := setRec st.pageTexts pageNumber pt.textArray
    pageJoinedTexts := setRec st.pageJoinedTexts pageNumber pt.joinedText
    pageTextItemRanges := setRec st.pageTextItemRanges pageNumber pt.itemRanges }

/-- `ensureCurrentMatchInRange`: null the index when there is no committed
phrase or no matches; reset it to `0` when it is null or out of
`[0, totalMatches)`; otherwise leave it alone. -/
def ensureCurrentMatchInRange (st : Store) : Store :=
  if jsTrim st.submittedSearchTerm = [] ∨ totalMatches st = 0 then
    { st with currentMatchIndex := none }
  else
    match st.currentMatchIndex with
    | none => { st with currentMatchIndex := some 0 }
    | some i =>
        if i < 0 ∨ (totalMatches st : Int) ≤ i then
          { st with currentMatchIndex := some 0 }
        else st

/-- `recomputeMatches`: clear everything when the trimmed term is empty;
otherwise rebuild `pageMatches` and `pageMatchRanges` from the current
`pageJoinedTexts` with a fresh global case-insensitive regex scan per page,
then re-clamp the current index. -/
def recomputeMatches (st : Store) : Store :=
  let term := jsTrim st.submittedSearchTerm
  if term = [] then
    { st with pageMatches := [], pageMatchRanges := [], currentMatchIndex := none }
  else
    ensureCurrentMatchInRange
      { st with
        pageMatches := st.pageJoinedTexts.map (fun e => (e.1, (computeRanges term e.2).length))
        pageMatchRanges := st.pageJoinedTexts.map (fun e => (e.1, computeRanges term e.2)) }

/-- `getMatchCountBeforePage`: number of matches on pages numbered strictly
below `pageNumber`. -/
def getMatchCountBeforePage (st : Store) (pageNumber : Nat) : Nat :=
  ((List.range (pageNumber - 1)).map
    (fun j => (lookupRec st.pageMatches (j + 1)).getD 0)).sum

/-- The page walk of `getPageForMatchIndex`: starting at `page` with
`cum` matches already accumulated and `left` pages still to visit, return
the first page whose count pushes the cumulative total past `matchIndex`. -/
def findMatchPage (pm : Rec Nat) (matchIndex : Int) : Nat → Nat → Nat → Option Nat
  | 0, _, _ => none
  | left + 1, page, cum =>
      let m := (lookupRec pm page).getD 0
      if matchIndex < ((cum + m : Nat) : Int) then some page
      else findMatchPage pm matchIndex left (page + 1) (cum + m)

/-- `getPageForMatchIndex`: null for a negative index or when no document is
loaded (`!this.totalDocumentPages`, also null for a zero page count);
otherwise walk pages `1..totalDocumentPages` accumulating counts. -/
def getPageForMatchIndex (st : Store) (matchIndex : Int) : Option Nat :=
  if matchIndex < 0 then none
  else
    match st.totalDocumentPages with
    | none => none
    | some total =>
        if total = 0 then none
        else findMatchPage st.pageMatches matchIndex total 1 0

/-- `nextMatch`: wrap forward through the global ordering and focus the
owning page when it changes. -/
def nextMatch (st : Store) : Store :=
  if totalMatches st = 0 then st
  else
    match st.currentMatchIndex with
    | none =>
        let st := { st with currentMatchIndex := some 0 }
        match getPageForMatchIndex st 0 with
        | some page => if page ≠ 0 then { st with currentPage := page } else st
        | none => st
    | some i =>
        let nextIndex := (i + 1) % (totalMatches st : Int)
        let st := { st with currentMatchIndex := some nextIndex }
        match getPageForMatchIndex st nextIndex with
        | some page => if page ≠ 0 ∧ page ≠ st.currentPage then { st with currentPage := page } else st
        | none => st

/-- `prevMatch`: wrap backward; a null index jumps to the last match. -/
def prevMatch (st : Store) : Store :=
  if totalMatches st = 0 then st
  else
    match st.currentMatchIndex with
    | none =>
        let prevIndex : Int := (totalMatches st : Int) - 1
        let st := { st with currentMatchIndex := some prevIndex }
        match getPageForMatchIndex st prevIndex with
        | some page => if page ≠ 0 then { st with currentPage := page } else st
        | none => st
    | some i =>
        let prevIndex := (i - 1 + (totalMatches st : Int)) % (totalMatches st : Int)
        let st := { st with currentMatchIndex := some prevIndex }
        match getPageForMatchIndex st prevIndex with
        | some page => if page ≠ 0 ∧ page ≠ st.currentPage then { st with currentPage := page } else st
        | none => st

/-- One overlap-query result entry. -/
structure OverlappingMatch where
  matchStart : Nat
  matchEnd : Nat
  localStart : Int
  localEnd : Int
  globalIndex : Nat
  deriving Repr, DecidableEq

/-- Insert into a list sorted by `localStart` (the comparator
`(a, b) => a.localStart - b.localStart` of `Array.prototype.sort`). -/
def insertByLocalStart (x : OverlappingMatch) : List OverlappingMatch → List OverlappingMatch
  | [] => [x]
  | y :: ys =>
      if x.localStart < y.localStart then x :: y :: ys
      else y :: insertByLocalStart x ys

/-- Sort by `localStart` ascending. -/
def sortByLocalStart (l : List OverlappingMatch) : List OverlappingMatch :=
  l.foldr insertByLocalStart []

/-- The entry `findOverlappingMatches` pushes for the match with ordinal
`idx`: local offsets are relative to the fragment, clamped below by `0`
(`Math.max`) and above by the fragment text length (`Math.min`). -/
def overlapEntry (base : Nat) (frag : ItemRange) (strLength : Nat)
    (idx : Nat) (r : MatchRange) : OverlappingMatch :=
  { matchStart := r.start
    matchEnd := r.stop
    localStart := max 0 ((r.start : Int) - (frag.start : Int))
    localEnd := min (strLength : Int) ((r.stop : Int) - (frag.start : Int))
    globalIndex := base + idx }

/-- `findOverlappingMatches`: keep the matches of the page whose range
strictly overlaps the fragment's range, localise them to the fragment, tag
them with their global index, and sort by `localStart`. -/
def findOverlappingMatches (st : Store) (pageNumber : Nat)
    (matchRanges : List MatchRange) (currentItemRange : ItemRange)
    (strLength : Nat) : List OverlappingMatch :=
  let base := getMatchCountBeforePage st pageNumber
  sortByLocalStart <|
    (matchRanges.enum.filterMap fun p =>
      if max p.2.start currentItemRange.start < min p.2.stop currentItemRange.stop then
        some (overlapEntry base currentItemRange strLength p.1 p.2)
      else none)

/-! ### The background scan -/

/-- The loaded pdf.js document as the scan uses it: a page count and the
decode of each page's text items. `getTextContent p = none` stands for a
rejected `getPage`/`getTextContent` promise or a non-array `items` payload —
the cases `processSinglePage` swallows. -/
structure PdfDocument where
  numPages : Nat
  getTextContent : Nat → Option (List TextItem)

/-- JS truthiness of a nullable string: `null` and `""` are falsy. -/
def truthyStr (s : Option Str) : Bool :=
  match s with
  | some t => !t.isEmpty
  | none => false

/-- `canProcessPages`: `!!(this.fileData && this.totalDocumentPages &&
this.submittedSearchTerm.trim())`. -/
def canProcessPages (st : Store) : Bool :=
  truthyStr st.fileData &&
  (match st.totalDocumentPages with | some n => decide (n ≠ 0) | none => false) &&
  !(jsTrim st.submittedSearchTerm).isEmpty

/-- `createPageProcessingPromises`: the pages `1..numPages` whose joined
text is not already stored (an empty stored string is falsy and is
reprocessed), in increasing order. Invoking `processSinglePage(doc, p)` is
an async function call, so each of these pages has its decode initiated
synchronously, during this loop — before any batch of the returned
promises is awaited. -/
def createPageProcessingPromises (doc : PdfDocument) (st : Store) : List Nat :=
  (List.range doc.numPages).map (fun j => j + 1) |>.filter
    (fun p => !truthyStr (lookupRec st.pageJoinedTexts p))

/-- `processSinglePage`: decode one page and store its processed text; a
decode failure is swallowed and leaves the store unchanged. -/
def processSinglePage (doc : PdfDocument) (st : Store) (pageNum : Nat) : Store :=
  match doc.getTextContent pageNum with
  | none => st
  | some items => updatePageTextData st pageNum (processTextItems items)

/-- The grouping of `processPagesInBatches`: `pagePromises.slice(i, i + 5)`
for `i = 0, 5, 10, ...` — the batches whose `Promise.all` results are
awaited one after the other. -/
def processPagesInBatches {α : Type} : List α → List (List α)
  | [] => []
  | x :: rest =>
      (x :: rest.take (PAGE_PROCESSING_BATCH_SIZE - 1)) ::
        processPagesInBatches (rest.drop (PAGE_PROCESSING_BATCH_SIZE - 1))
  termination_by l => l.length
  decreasing_by simp; omega

/-- `processAllPagesForSearch`: guard, set the scanning flag, decode every
not-yet-stored page, recompute matches once at the end, clear the flag.
Page updates of distinct pages touch distinct record keys, so the final
store does not depend on the completion order inside a batch; the fold
applies them in page order. -/
def processAllPagesForSearch (doc : PdfDocument) (st : Store) : Store :=
  if !canProcessPages st then st
  else
    let st1 := { st with isProcessingAllPages := true }
    let pending := createPageProcessingPromises doc st1
    let st2 := pending.foldl (processSinglePage doc) st1
    let st3 := recomputeMatches st2
    { st3 with isProcessingAllPages := false }

/-! ### Spec-side definitions, for comparison with the code -/

/-- Clamp an integer into `[lo, hi]`. -/
def clampInt (x lo hi : Int) : Int := max lo (min hi x)

/-- Modelled from the spec: the Overlap Resolver entry as §4.6 words it,
with both local offsets clamped into `[0, fragmentTextLength]`. -/
def overlapEntrySpec (base : Nat) (frag : ItemRange) (strLength : Nat)
    (idx : Nat) (r : MatchRange) : OverlappingMatch :=
  { matchStart := r.start
    matchEnd := r.stop
    localStart := clampInt ((r.start : Int) - (frag.start : Int)) 0 (strLength : Int)
    localEnd := clampInt ((r.stop : Int) - (frag.start : Int)) 0 (strLength : Int)
    globalIndex := base + idx }

/-- Modelled from the spec: the whole Overlap Resolver output of §4.6 —
strictly overlapping matches, spec-clamped, sorted by `localStart`. -/
def overlapsSpec (st : Store) (pageNumber : Nat)
    (matchRanges : List MatchRange) (frag : ItemRange)
    (strLength : Nat) : List OverlappingMatch :=
  let base := getMatchCountBeforePage st pageNumber
  sortByLocalStart <|
    (matchRanges.enum.filterMap fun p =>
      if max p.2.start frag.start < min p.2.stop frag.stop then
        some (overlapEntrySpec base frag strLength p.1 p.2)
      else none)

/-- The single-pass total of the spec's background-scan property: run the
match computation once over the texts of pages `1..numPages`; a page with
no stored text contributes zero matches. -/
def onePassTotalMatches (term : Str) (texts : Nat → Option Str) (numPages : Nat) : Nat :=
  ((List.range numPages).map (fun j =>
    match texts (j + 1) with
    | some t => (computeRanges term t).length
    | none => 0)).sum

/-- The joined text that page `p` holds once a scan of `doc` from state `st`
has completed: a page whose (truthy) text was already stored keeps it, a
page the scan decodes gets its processed joined text, and a page whose
decode failed keeps whatever was there (nothing, or a stored empty
string). -/
def finalPageText (doc : PdfDocument) (st : Store) (p : Nat) : Option Str :=
  if truthyStr (lookupRec st.pageJoinedTexts p) then
    lookupRec st.pageJoinedTexts p
  else
    match doc.getTextContent p with
    | some items => some (processTextItems items).joinedText
    | none => lookupRec st.pageJoinedTexts p

/-- Pages whose decode work has been initiated before
`processPagesInBatches` awaits its first batch. A JS async function runs
synchronously up to its first `await` when it is called, so
`processSinglePage(pdfDocument, pageNum)` issues its `getPage` request at
promise-creation time, inside the `createPageProcessingPromises` loop —
for every pending page, not just the first batch. -/
def decodesStartedBeforeFirstAwait (doc : PdfDocument) (st : Store) : List Nat :=
  createPageProcessingPromises doc st

/-- Sum of `f` over the `count` consecutive naturals starting at `start`. -/
def sumOver (f : Nat → Nat) : Nat → Nat → Nat
  | _, 0 => 0
  | start, count + 1 => f start + sumOver f (start + 1) count

/-- Count a value behind an `Option`, with `none` contributing zero. -/
def optCount {α : Type} (f : α → Nat) : Option α → Nat
  | some v => f v
  | none => 0

/-- Well-formedness of a modelled JS object: keys strictly ascending
(hence unique), as `Object.entries` iteration produces them. -/
def WFRec {α : Type} (m : Rec α) : Prop :=
  (keysOf m).Pairwise (fun a b => a < b)

/-! ### Concrete fixtures -/

/-- A fresh store, as the `PdfViewerStore` constructor leaves it. -/
def store0 : Store :=
  { fileData := none
    totalDocumentPages := none
    currentPage := 1
    searchTerm := []
    submittedSearchTerm := []
    pageMatches := []
    pageTexts := []
    pageJoinedTexts := []
    pageMatchRanges := []
    pageTextItemRanges := []
    currentMatchIndex := none
    isProcessingAllPages := false }

/-- A one-page store holding three matches, current match `2`. -/
def storeNav3 : Store :=
  { store0 with
    totalDocumentPages := some 1
    submittedSearchTerm := "ab".data
    pageMatches := [(1, 3)]
    currentMatchIndex := some 2 }

/-- The same store with a null current match. -/
def storeNavNull : Store :=
  { storeNav3 with currentMatchIndex := none }

/-- A store about to recompute: term `"ab"`, one page of text with two
occurrences, current index out of range. -/
def storeRe : Store :=
  { store0 with
    submittedSearchTerm := "ab".data
    pageJoinedTexts := [(1, "ab xy ab".data)]
    currentMatchIndex := some 5 }

/-- A store whose committed phrase is whitespace only. -/
def storeWs : Store :=
  { store0 with submittedSearchTerm := " \t ".data, pageMatches := [(1, 2)] }

/-- A two-page store with three matches: two on page 1, one on page 2. -/
def storePm : Store :=
  { store0 with totalDocumentPages := some 2, pageMatches := [(1, 2), (2, 1)] }

/-- A three-page document: page 2 decodes to the fragments
`["ab", (missing str)]`, pages 1 and 3 fail to decode. -/
def docW : PdfDocument :=
  { numPages := 3
    getTextContent := fun p => if p = 2 then some [some "ab".data, none] else none }

/-- A store ready for a background scan of `docW`: page 1 pre-indexed. -/
def storeScan : Store :=
  { store0 with
    fileData := some "x".data
    totalDocumentPages := some 3
    submittedSearchTerm := "ab".data
    pageJoinedTexts := [(1, "ab cd".data)] }

/-- A six-page document whose every decode fails. -/
def docSix : PdfDocument :=
  { numPages := 6, getTextContent := fun _ => none }

/-- A store ready for a background scan of `docSix`: no page pre-indexed. -/
def storeSix : Store :=
  { store0 with
    fileData := some "x".data
    totalDocumentPages := some 6
    submittedSearchTerm := "ab".data }

/-! ## Lemmas and theorems -/

lemma length_intercalate_space :
    ∀ l : List Str, (List.intercalate [' '] l).length = (l.map List.length).sum + (l.length - 1) := by
  intro l
  induction l with
  | nil => simp [List.intercalate]
  | cons t rest ih =>
    cases rest with
    | nil => simp [List.intercalate]
    | cons u rest' =>
      have h2 : List.intercalate [' '] (t :: u :: rest')
          = t ++ [' '] ++ List.intercalate [' '] (u :: rest') := by
        simp [List.intercalate]
      rw [h2]
      simp only [List.length_append, List.map_cons, List.sum_cons, List.length_cons,
        List.length_nil] at ih ⊢
      omega

lemma buildItemRanges_spans :
    ∀ (texts : List Str) (pos : Nat),
      List.Forall₂ (fun (r : ItemRange) (t : Str) => r.stop = r.start + t.length)
        (buildItemRanges texts pos) texts := by
  intro texts
  induction texts with
  | nil => intro pos; simp [buildItemRanges]
  | cons t rest ih =>
    intro pos
    cases rest with
    | nil => simp [buildItemRanges]
    | cons u rest' =>
      exact List.Forall₂.cons rfl (ih (pos + t.length + 1))

/-- C8: the fragment joiner emits one separator between consecutive
fragments and none after the last — the joined text's length is the sum of
the fragment lengths plus `max 0 (count - 1)` — the empty fragment list
yields the empty string and an empty span list, and every recorded span has
exactly its fragment's length (the separator excluded). -/
theorem fragment_joiner_length_and_spans (items : List TextItem) :
    (processTextItems items).textArray = items.map (fun i => i.getD []) ∧
    (processTextItems items).joinedText.length =
      (items.map (fun i => (i.getD []).length)).sum + (items.length - 1) ∧
    processTextItems [] = ⟨[], [], []⟩ ∧
    List.Forall₂ (fun (r : ItemRange) (t : Str) => r.stop = r.start + t.length)
      (processTextItems items).itemRanges (processTextItems items).textArray := by
  refine ⟨rfl, ?_, rfl, ?_⟩
  · show (List.intercalate [' '] (items.map (fun i => i.getD []))).length = _
    rw [length_intercalate_space]
    simp [List.map_map, Function.comp_def]
  · exact buildItemRanges_spans _ 0

/-- C2: the committed phrase is matched literally (metacharacters escaped),
case-insensitively, with terms joined across whitespace: `"a.b"` matches
the text `"a.b"` and not `"axb"`; `"hello world"` over the joined fragments
`["hello", "world"]` yields exactly the single match spanning the whole
joined string; matching ignores case. -/
theorem phrase_matching_literal_cases :
    computeRanges "a.b".data "a.b".data = [MatchRange.mk 0 3] ∧
    computeRanges "a.b".data "axb".data = [] ∧
    computeRanges "hello world".data
        (processTextItems [some "hello".data, some "world".data]).joinedText
      = [MatchRange.mk 0 11] ∧
    (processTextItems [some "hello".data, some "world".data]).joinedText.length = 11 ∧
    computeRanges "ab".data "AB".data = [MatchRange.mk 0 2] := by
  exact ⟨rfl, rfl, rfl, rfl, rfl⟩

/-- C6: the batching of the background scan does not bound concurrency.
All six pending pages of `docSix` have their decode initiated during
promise creation — before the first batch of five is awaited — so six
decode tasks are in flight although the batch size is five. The batch
grouping itself is `[1..5], [6]`, in increasing page order. -/
theorem scan_decodes_start_eagerly :
    decodesStartedBeforeFirstAwait docSix storeSix = [1, 2, 3, 4, 5, 6] ∧
    PAGE_PROCESSING_BATCH_SIZE = 5 ∧
    processPagesInBatches (decodesStartedBeforeFirstAwait docSix storeSix)
      = [[1, 2, 3, 4, 5], [6]] := by
  refine ⟨by decide, rfl, ?_⟩
  have h : decodesStartedBeforeFirstAwait docSix storeSix = [1, 2, 3, 4, 5, 6] := by decide
  rw [h]
  simp [processPagesInBatches, PAGE_PROCESSING_BATCH_SIZE]

lemma tokenizePattern_nil : tokenizePattern [] = some [] := rfl

lemma tokenizePattern_cons_esc (c : Char) (tail : Str) (hs : ¬(c = 's')) :
    tokenizePattern ('\\' :: c :: tail)
      = (tokenizePattern tail).map (fun ts => Tok.lit c :: ts) := by
  rw [tokenizePattern.eq_def]
  simp [hs]

lemma tokenizePattern_cons_plain (c : Char) (tail : Str)
    (hb : ¬(c = '\\')) (hm : isMeta c = false) :
    tokenizePattern (c :: tail)
      = (tokenizePattern tail).map (fun ts => Tok.lit c :: ts) := by
  rw [tokenizePattern.eq_def]
  simp [hb, hm]

lemma tokenizePattern_cons_wsPlus (tail : Str) :
    tokenizePattern ('\\' :: 's' :: '+' :: tail)
      = (tokenizePattern tail).map (fun ts => Tok.wsPlus :: ts) := by
  rw [tokenizePattern.eq_def]
  simp

lemma tokenizePattern_escape_append (w rest : Str) :
    tokenizePattern (escapeRegex w ++ rest)
      = (tokenizePattern rest).map (fun ts => w.map Tok.lit ++ ts) := by
  induction w with
  | nil =>
    simp only [escapeRegex, List.flatMap_nil, List.nil_append, List.map_nil]
    cases tokenizePattern rest <;> simp
  | cons c w' ih =>
    by_cases hm : isMeta c = true
    · have hne : ¬(c = 's') := by
        intro h; rw [h] at hm; exact absurd hm (by decide)
      have he : escapeRegex (c :: w') ++ rest
          = '\\' :: c :: (escapeRegex w' ++ rest) := by
        simp [escapeRegex, hm]
      rw [he, tokenizePattern_cons_esc c _ hne, ih]
      cases tokenizePattern rest <;> simp
    · have hb : ¬(c = '\\') := by
        intro h; rw [h] at hm; exact hm (by decide)
      have he : escapeRegex (c :: w') ++ rest = c :: (escapeRegex w' ++ rest) := by
        simp [escapeRegex, hm]
      rw [he, tokenizePattern_cons_plain c _ hb (by simpa using hm), ih]
      cases tokenizePattern rest <;> simp

lemma tokenizePattern_intercalate (parts : List Str) :
    tokenizePattern (List.intercalate ['\\', 's', '+'] (parts.map escapeRegex))
      = some (List.intercalate [Tok.wsPlus] (parts.map (fun w => w.map Tok.lit))) := by
  induction parts with
  | nil => rfl
  | cons w parts' ih =>
    cases parts' with
    | nil =>
      have h1 : List.intercalate ['\\', 's', '+'] ([w].map escapeRegex) = escapeRegex w := by
        simp [List.intercalate]
      have h2 : List.intercalate [Tok.wsPlus] ([w].map (fun v => v.map Tok.lit))
          = w.map Tok.lit := by
        simp [List.intercalate]
      rw [h1, h2]
      have h := tokenizePattern_escape_append w []
      simpa [tokenizePattern_nil] using h
    | cons u parts'' =>
      have h2 : List.intercalate ['\\', 's', '+'] ((w :: u :: parts'').map escapeRegex)
          = escapeRegex w ++
            ('\\' :: 's' :: '+' ::
              List.intercalate ['\\', 's', '+'] ((u :: parts'').map escapeRegex)) := by
        simp [List.intercalate]
      have h3 : List.intercalate [Tok.wsPlus] ((w :: u :: parts'').map (fun v => v.map Tok.lit))
          = w.map Tok.lit ++
            (Tok.wsPlus ::
              List.intercalate [Tok.wsPlus] ((u :: parts'').map (fun v => v.map Tok.lit))) := by
        simp [List.intercalate]
      rw [h2, h3, tokenizePattern_escape_append, tokenizePattern_cons_wsPlus, ih]
      rfl

/-- C9: the match computation is total on phrases. A phrase whose trim is
empty (including whitespace-only phrases) clears all matches and nulls the
current index without error, and the pattern `recomputeMatches` builds for
any phrase — metacharacters included — always stays inside the literal
`\s+`-joined regex fragment, so constructing the regex never raises. -/
theorem recompute_never_raises (st : Store) :
    (jsTrim st.submittedSearchTerm = [] →
      (recomputeMatches st).pageMatches = [] ∧
      (recomputeMatches st).pageMatchRanges = [] ∧
      (recomputeMatches st).currentMatchIndex = none ∧
      totalMatches (recomputeMatches st) = 0) ∧
    (∀ term : Str, (tokenizePattern (buildPattern term)).isSome) := by
  constructor
  · intro h
    simp [recomputeMatches, h, totalMatches]
  · intro term
    rw [buildPattern, tokenizePattern_intercalate]
    rfl

/-- Witness for C9 at a whitespace-only committed phrase and a phrase of
unmatched metacharacters. -/
theorem recompute_never_raises_witness :
    (recomputeMatches storeWs).pageMatches = [] ∧
    (recomputeMatches storeWs).currentMatchIndex = none ∧
    (tokenizePattern (buildPattern "a(b[c".data)).isSome := by
  obtain ⟨h1, h2⟩ := recompute_never_raises storeWs
  have h := h1 (by decide)
  exact ⟨h.1, h.2.2.1, h2 _⟩

lemma ensure_fields (st : Store) :
    (ensureCurrentMatchInRange st).pageMatches = st.pageMatches ∧
    (ensureCurrentMatchInRange st).pageMatchRanges = st.pageMatchRanges ∧
    (ensureCurrentMatchInRange st).pageJoinedTexts = st.pageJoinedTexts ∧
    (ensureCurrentMatchInRange st).submittedSearchTerm = st.submittedSearchTerm := by
  unfold ensureCurrentMatchInRange
  split
  · exact ⟨rfl, rfl, rfl, rfl⟩
  · split
    · exact ⟨rfl, rfl, rfl, rfl⟩
    · split
      · exact ⟨rfl, rfl, rfl, rfl⟩
      · exact ⟨rfl, rfl, rfl, rfl⟩

lemma totalMatches_ensure (st : Store) :
    totalMatches (ensureCurrentMatchInRange st) = totalMatches st := by
  unfold totalMatches
  rw [(ensure_fields st).1]

lemma ensure_idx (st : Store) :
    ((jsTrim st.submittedSearchTerm = [] ∨ totalMatches st = 0) →
      (ensureCurrentMatchInRange st).currentMatchIndex = none) ∧
    (jsTrim st.submittedSearchTerm ≠ [] → totalMatches st ≠ 0 →
      st.currentMatchIndex = none →
      (ensureCurrentMatchInRange st).currentMatchIndex = some 0) ∧
    (∀ i, jsTrim st.submittedSearchTerm ≠ [] → totalMatches st ≠ 0 →
      st.currentMatchIndex = some i → (i < 0 ∨ (totalMatches st : Int) ≤ i) →
      (ensureCurrentMatchInRange st).currentMatchIndex = some 0) ∧
    (∀ i, jsTrim st.submittedSearchTerm ≠ [] →
      st.currentMatchIndex = some i → 0 ≤ i → i < (totalMatches st : Int) →
      (ensureCurrentMatchInRange st).currentMatchIndex = some i) := by
  refine ⟨?_, ?_, ?_, ?_⟩
  · intro h
    unfold ensureCurrentMatchInRange
    rw [if_pos h]
  · intro h1 h2 h3
    unfold ensureCurrentMatchInRange
    rw [if_neg (by tauto), h3]
  · intro i h1 h2 h3 h4
    unfold ensureCurrentMatchInRange
    rw [if_neg (by tauto), h3]
    dsimp only
    rw [if_pos h4]
  · intro i h1 h3 h4 h5
    have h2 : totalMatches st ≠ 0 := by
      intro h0
      rw [h0] at h5
      omega
    unfold ensureCurrentMatchInRange
    rw [if_neg (by tauto), h3]
    dsimp only
    rw [if_neg (by omega)]
    exact h3

lemma recompute_nonempty_eq (st : Store) (h : ¬(jsTrim st.submittedSearchTerm = [])) :
    recomputeMatches st = ensureCurrentMatchInRange
      { st with
        pageMatches :=
          st.pageJoinedTexts.map
            (fun e => (e.1, (computeRanges (jsTrim st.submittedSearchTerm) e.2).length))
        pageMatchRanges :=
          st.pageJoinedTexts.map
            (fun e => (e.1, computeRanges (jsTrim st.submittedSearchTerm) e.2)) } := by
  unfold recomputeMatches
  rw [if_neg h]

/-- C4: after every recompute the current match index is null when the
committed phrase trims empty or there are no matches, reset to `0` when it
was null or out of `[0, totalMatches)`, kept when it was in range — so it
always ends up null or inside `[0, totalMatches)`. -/
theorem recompute_reclamps_current_index (st : Store) :
    ((jsTrim st.submittedSearchTerm = [] ∨ totalMatches (recomputeMatches st) = 0) →
      (recomputeMatches st).currentMatchIndex = none) ∧
    (jsTrim st.submittedSearchTerm ≠ [] → totalMatches (recomputeMatches st) ≠ 0 →
      st.currentMatchIndex = none →
      (recomputeMatches st).currentMatchIndex = some 0) ∧
    (∀ i, jsTrim st.submittedSearchTerm ≠ [] → totalMatches (recomputeMatches st) ≠ 0 →
      st.currentMatchIndex = some i →
      (i < 0 ∨ (totalMatches (recomputeMatches st) : Int) ≤ i) →
      (recomputeMatches st).currentMatchIndex = some 0) ∧
    (∀ i, jsTrim st.submittedSearchTerm ≠ [] →
      st.currentMatchIndex = some i → 0 ≤ i →
      i < (totalMatches (recomputeMatches st) : Int) →
      (recomputeMatches st).currentMatchIndex = some i) ∧
    ((recomputeMatches st).currentMatchIndex = none ∨
      ∃ i, (recomputeMatches st).currentMatchIndex = some i ∧
        0 ≤ i ∧ i < (totalMatches (recomputeMatches st) : Int)) := by
  by_cases h : jsTrim st.submittedSearchTerm = []
  · have he : (recomputeMatches st).currentMatchIndex = none := by
      unfold recomputeMatches
      rw [if_pos h]
    refine ⟨fun _ => he, fun h1 => absurd h h1, fun i h1 => absurd h h1,
      fun i h1 => absurd h h1, Or.inl he⟩
  · rw [recompute_nonempty_eq st h]
    set st2 : Store :=
      { st with
        pageMatches :=
          st.pageJoinedTexts.map
            (fun e => (e.1, (computeRanges (jsTrim st.submittedSearchTerm) e.2).length))
        pageMatchRanges :=
          st.pageJoinedTexts.map
            (fun e => (e.1, computeRanges (jsTrim st.submittedSearchTerm) e.2)) } with hst2
    have hterm : st2.submittedSearchTerm = st.submittedSearchTerm := rfl
    have hidx : st2.currentMatchIndex = st.currentMatchIndex := rfl
    have htot : totalMatches (ensureCurrentMatchInRange st2) = totalMatches st2 :=
      totalMatches_ensure st2
    obtain ⟨e1, e2, e3, e4⟩ := ensure_idx st2
    rw [hterm] at e1 e2 e3 e4
    rw [hidx] at e2 e3 e4
    refine ⟨?_, ?_, ?_, ?_, ?_⟩
    · intro hc
      rw [htot] at hc
      exact e1 (hc.imp id id)
    · intro h1 h2 h3
      rw [htot] at h2
      exact e2 h1 h2 h3
    · intro i h1 h2 h3 h4
      rw [htot] at h2 h4
      exact e3 i h1 h2 h3 h4
    · intro i h1 h3 h4 h5
      rw [htot] at h5
      exact e4 i h1 h3 h4 h5
    · rw [htot]
      by_cases hz : totalMatches st2 = 0
      · exact Or.inl (e1 (Or.inr hz))
      · cases hcur : st.currentMatchIndex with
        | none => exact Or.inr ⟨0, e2 h hz hcur, le_refl 0, by omega⟩
        | some i =>
            by_cases hr : i < 0 ∨ (totalMatches st2 : Int) ≤ i
            · exact Or.inr ⟨0, e3 i h hz hcur hr, le_refl 0, by omega⟩
            · push_neg at hr
              exact Or.inr ⟨i, e4 i h hcur hr.1 hr.2, hr.1, hr.2⟩

/-- Witness for C4 at a store with two matches and an out-of-range index:
the recompute resets the index to `0`, and `0` is inside the range. -/
theorem recompute_reclamps_current_index_witness :
    (recomputeMatches storeRe).currentMatchIndex = some 0 ∧
    totalMatches (recomputeMatches storeRe) = 2 := by
  obtain ⟨-, -, e3, -, -⟩ := recompute_reclamps_current_index storeRe
  exact ⟨e3 5 (by decide) (by decide) (by decide) (by decide), by decide⟩

lemma lookupRec_mapVals {α β : Type} (f : α → β) (m : Rec α) (p : Nat) :
    lookupRec (m.map (fun e => (e.1, f e.2))) p = (lookupRec m p).map f := by
  induction m with
  | nil => rfl
  | cons e rest ih =>
    by_cases hp : p = e.1
    · simp [lookupRec, hp]
    · simp [lookupRec, hp, ih]

/-- C10: after a recompute with a non-empty trimmed phrase, the per-page
count table and the per-page range table are keyed exactly like the joined
text table, and each page's count equals the length of its range list. -/
theorem recompute_counts_consistent (st : Store)
    (h : jsTrim st.submittedSearchTerm ≠ []) :
    keysOf (recomputeMatches st).pageMatches
      = keysOf (recomputeMatches st).pageJoinedTexts ∧
    keysOf (recomputeMatches st).pageMatchRanges
      = keysOf (recomputeMatches st).pageJoinedTexts ∧
    ∀ p, lookupRec (recomputeMatches st).pageMatches p
      = (lookupRec (recomputeMatches st).pageMatchRanges p).map List.length := by
  rw [recompute_nonempty_eq st h]
  set term := jsTrim st.submittedSearchTerm with hterm
  set st2 : Store :=
    { st with
      pageMatches := st.pageJoinedTexts.map (fun e => (e.1, (computeRanges term e.2).length))
      pageMatchRanges := st.pageJoinedTexts.map (fun e => (e.1, computeRanges term e.2)) }
    with hst2
  obtain ⟨f1, f2, f3, -⟩ := ensure_fields st2
  rw [f1, f2, f3]
  refine ⟨by simp [hst2, keysOf], by simp [hst2, keysOf], ?_⟩
  intro p
  show lookupRec (st.pageJoinedTexts.map (fun e => (e.1, (computeRanges term e.2).length))) p
      = (lookupRec (st.pageJoinedTexts.map (fun e => (e.1, computeRanges term e.2))) p).map
          List.length
  rw [lookupRec_mapVals (fun t => (computeRanges term t).length) st.pageJoinedTexts p,
    lookupRec_mapVals (fun t => computeRanges term t) st.pageJoinedTexts p,
    Option.map_map]
  rfl

/-- Witness for C10 at `storeRe`. -/
theorem recompute_counts_consistent_witness :
    keysOf (recomputeMatches storeRe).pageMatches
        = keysOf (recomputeMatches storeRe).pageJoinedTexts ∧
    lookupRec (recomputeMatches storeRe).pageMatches 1
        = (lookupRec (recomputeMatches storeRe).pageMatchRanges 1).map List.length := by
  obtain ⟨k1, -, k3⟩ := recompute_counts_consistent storeRe (by decide)
  exact ⟨k1, k3 1⟩

/-- C7: navigation wraps around the global ordering: at three matches with
current index `2`, `nextMatch` wraps to `0`; from a null index with matches
present, `prevMatch` jumps to the last match and `nextMatch` to the first;
with no matches both are no-ops. -/
theorem navigation_wraps (st : Store) :
    (totalMatches st = 3 → st.currentMatchIndex = some 2 →
      (nextMatch st).currentMatchIndex = some 0) ∧
    (totalMatches st ≠ 0 → st.currentMatchIndex = none →
      (prevMatch st).currentMatchIndex = some ((totalMatches st : Int) - 1) ∧
      (nextMatch st).currentMatchIndex = some 0) ∧
    (totalMatches st = 0 → nextMatch st = st ∧ prevMatch st = st) := by
  refine ⟨?_, ?_, ?_⟩
  · intro h3 hc
    unfold nextMatch
    rw [if_neg (by omega), hc]
    dsimp only
    rw [h3]
    have hmod : ((2 : Int) + 1) % ((3 : Nat) : Int) = 0 := by decide
    rw [hmod]
    cases hp : getPageForMatchIndex { st with currentMatchIndex := some 0 } 0 with
    | none => rfl
    | some page =>
        dsimp only
        split
        · rfl
        · rfl
  · intro h0 hc
    constructor
    · unfold prevMatch
      rw [if_neg h0, hc]
      dsimp only
      cases hp : getPageForMatchIndex
          { st with currentMatchIndex := some ((totalMatches st : Int) - 1) }
          ((totalMatches st : Int) - 1) with
      | none => rfl
      | some page =>
          dsimp only
          split
          · rfl
          · rfl
    · unfold nextMatch
      rw [if_neg h0, hc]
      dsimp only
      cases hp : getPageForMatchIndex { st with currentMatchIndex := some 0 } 0 with
      | none => rfl
      | some page =>
          dsimp only
          split
          · rfl
          · rfl
  · intro h0
    constructor
    · unfold nextMatch
      rw [if_pos h0]
    · unfold prevMatch
      rw [if_pos h0]

/-- Witness for C7: the three scenarios at concrete stores. -/
theorem navigation_wraps_witness :
    (nextMatch storeNav3).currentMatchIndex = some 0 ∧
    (prevMatch storeNavNull).currentMatchIndex = some 2 ∧
    (nextMatch storeNavNull).currentMatchIndex = some 0 ∧
    nextMatch store0 = store0 ∧ prevMatch store0 = store0 := by
  obtain ⟨n1, -, -⟩ := navigation_wraps storeNav3
  obtain ⟨-, n2, -⟩ := navigation_wraps storeNavNull
  obtain ⟨-, -, n3⟩ := navigation_wraps store0
  obtain ⟨p1, p2⟩ := n2 (by decide) (by decide)
  obtain ⟨q1, q2⟩ := n3 (by decide)
  exact ⟨n1 (by decide) (by decide), p1, p2, q1, q2⟩

lemma mem_insertByLocalStart (z x : OverlappingMatch) :
    ∀ l : List OverlappingMatch, z ∈ insertByLocalStart x l ↔ z = x ∨ z ∈ l := by
  intro l
  induction l with
  | nil => simp [insertByLocalStart]
  | cons y ys ih =>
    unfold insertByLocalStart
    split
    · simp
    · simp only [List.mem_cons, ih]
      tauto

lemma pairwise_insertByLocalStart (x : OverlappingMatch) (l : List OverlappingMatch)
    (h : l.Pairwise (fun a b => a.localStart ≤ b.localStart)) :
    (insertByLocalStart x l).Pairwise (fun a b => a.localStart ≤ b.localStart) := by
  induction l with
  | nil => simp [insertByLocalStart]
  | cons y ys ih =>
    rw [List.pairwise_cons] at h
    unfold insertByLocalStart
    split
    · refine List.Pairwise.cons ?_ (List.Pairwise.cons h.1 h.2)
      intro z hz
      rcases List.mem_cons.mp hz with hz | hz
      · subst hz; omega
      · have := h.1 z hz
        omega
    · refine List.Pairwise.cons ?_ (ih h.2)
      intro z hz
      rcases (mem_insertByLocalStart z x ys).mp hz with hz | hz
      · subst hz; omega
      · exact h.1 z hz

lemma sortByLocalStart_sorted (l : List OverlappingMatch) :
    (sortByLocalStart l).Pairwise (fun a b => a.localStart ≤ b.localStart) := by
  induction l with
  | nil => simp [sortByLocalStart]
  | cons x xs ih => exact pairwise_insertByLocalStart x _ ih

lemma mem_sortByLocalStart (z : OverlappingMatch) (l : List OverlappingMatch) :
    z ∈ sortByLocalStart l ↔ z ∈ l := by
  induction l with
  | nil => simp [sortByLocalStart]
  | cons x xs ih =>
    show z ∈ insertByLocalStart x (sortByLocalStart xs) ↔ _
    rw [mem_insertByLocalStart, ih]
    simp [eq_comm]

lemma overlapEntry_eq_spec (base : Nat) (frag : ItemRange) (strLength : Nat)
    (idx : Nat) (r : MatchRange)
    (hlen : frag.stop = frag.start + strLength)
    (hov : max r.start frag.start < min r.stop frag.stop) :
    overlapEntry base frag strLength idx r = overlapEntrySpec base frag strLength idx r := by
  have h1 : r.start < frag.stop := lt_of_le_of_lt (le_max_left _ _)
    (lt_of_lt_of_le hov (min_le_right _ _))
  have h2 : frag.start < r.stop := lt_of_le_of_lt (le_max_right _ _)
    (lt_of_lt_of_le hov (min_le_left _ _))
  unfold overlapEntry overlapEntrySpec clampInt
  congr 1
  · have hs : ((r.start : Int) - (frag.start : Int)) ≤ (strLength : Int) := by
      omega
    rw [min_eq_right hs]
  · have he : (0 : Int) ≤ min (strLength : Int) ((r.stop : Int) - (frag.start : Int)) := by
      refine le_min (by omega) (by omega)
    rw [max_eq_right he]

/-- C3: `findOverlappingMatches` returns exactly the matches of the page
that strictly overlap the fragment span, each localised with
`localStart`/`localEnd` clamped into `[0, fragmentTextLength]` and tagged
`globalIndex = matchCountBeforePage + ordinal`, sorted by `localStart`
ascending (so a match spanning adjacent fragments yields one clamped entry
per fragment). The hypothesis ties `strLength` to the fragment span, as the
spans built by the fragment joiner always do. -/
theorem overlap_resolver_spec (st : Store) (pageNumber : Nat)
    (matchRanges : List MatchRange) (frag : ItemRange) (strLength : Nat)
    (hlen : frag.stop = frag.start + strLength) :
    findOverlappingMatches st pageNumber matchRanges frag strLength
      = overlapsSpec st pageNumber matchRanges frag strLength ∧
    (findOverlappingMatches st pageNumber matchRanges frag strLength).Pairwise
      (fun a b => a.localStart ≤ b.localStart) ∧
    (∀ om, om ∈ findOverlappingMatches st pageNumber matchRanges frag strLength ↔
      ∃ p ∈ matchRanges.enum,
        max p.2.start frag.start < min p.2.stop frag.stop ∧
        om = overlapEntrySpec (getMatchCountBeforePage st pageNumber) frag strLength
          p.1 p.2) := by
  have heq : findOverlappingMatches st pageNumber matchRanges frag strLength
      = overlapsSpec st pageNumber matchRanges frag strLength := by
    unfold findOverlappingMatches overlapsSpec
    dsimp only
    congr 1
    apply List.filterMap_congr
    intro p _
    split
    · next hov => rw [overlapEntry_eq_spec _ _ _ _ _ hlen hov]
    · rfl
  refine ⟨heq, ?_, ?_⟩
  · unfold findOverlappingMatches
    exact sortByLocalStart_sorted _
  · intro om
    rw [heq]
    unfold overlapsSpec
    dsimp only
    rw [mem_sortByLocalStart, List.mem_filterMap]
    constructor
    · rintro ⟨p, hp, hsome⟩
      by_cases hov : max p.2.start frag.start < min p.2.stop frag.stop
      · rw [if_pos hov] at hsome
        exact ⟨p, hp, hov, (Option.some.injEq _ _).mp hsome |>.symm⟩
      · rw [if_neg hov] at hsome
        exact absurd hsome (Option.noConfusion)
    · rintro ⟨p, hp, hov, hom⟩
      exact ⟨p, hp, by rw [if_pos hov, hom]⟩

/-- Witness for C3: one match `[3, 9)` spanning two adjacent fragments
`[0, 5)` and `[6, 11)` (each of text length 5) produces one clamped entry
per fragment. -/
theorem overlap_resolver_spec_witness :
    findOverlappingMatches store0 1 [MatchRange.mk 3 9] (ItemRange.mk 0 5) 5
        = overlapsSpec store0 1 [MatchRange.mk 3 9] (ItemRange.mk 0 5) 5 ∧
    findOverlappingMatches store0 1 [MatchRange.mk 3 9] (ItemRange.mk 6 11) 5
        = overlapsSpec store0 1 [MatchRange.mk 3 9] (ItemRange.mk 6 11) 5 ∧
    findOverlappingMatches store0 1 [MatchRange.mk 3 9] (ItemRange.mk 0 5) 5
        = [⟨3, 9, 3, 5, 0⟩] ∧
    findOverlappingMatches store0 1 [MatchRange.mk 3 9] (ItemRange.mk 6 11) 5
        = [⟨3, 9, 0, 3, 0⟩] := by
  refine ⟨(overlap_resolver_spec store0 1 _ _ 5 (by decide)).1,
    (overlap_resolver_spec store0 1 _ _ 5 (by decide)).1, by decide, by decide⟩

/-! ### Sums of per-page counts -/

lemma sumOver_congr (f g : Nat → Nat) :
    ∀ (count s : Nat), (∀ p, s ≤ p → p < s + count → f p = g p) →
      sumOver f s count = sumOver g s count := by
  intro count
  induction count with
  | zero => intro s _; rfl
  | succ k ih =>
    intro s h
    unfold sumOver
    rw [h s (le_refl s) (by omega), ih (s + 1) (fun p h1 h2 => h p (by omega) (by omega))]

lemma sumOver_zero_fn (f : Nat → Nat) :
    ∀ (count s : Nat), (∀ p, f p = 0) → sumOver f s count = 0 := by
  intro count
  induction count with
  | zero => intro s _; rfl
  | succ k ih =>
    intro s h
    unfold sumOver
    rw [h s, ih (s + 1) h]

lemma sumOver_succ_right (f : Nat → Nat) :
    ∀ (count s : Nat), sumOver f s (count + 1) = sumOver f s count + f (s + count) := by
  intro count
  induction count with
  | zero => intro s; simp [sumOver]
  | succ k ih =>
    intro s
    show f s + sumOver f (s + 1) (k + 1) = f s + sumOver f (s + 1) k + f (s + (k + 1))
    rw [ih (s + 1), show s + 1 + k = s + (k + 1) by omega]
    omega

lemma sumOver_split (f : Nat → Nat) :
    ∀ (a b s : Nat), sumOver f s (a + b) = sumOver f s a + sumOver f (s + a) b := by
  intro a
  induction a with
  | zero => intro b s; simp [sumOver]
  | succ k ih =>
    intro b s
    rw [show k + 1 + b = (k + b) + 1 by omega]
    show f s + sumOver f (s + 1) (k + b)
        = sumOver f s (k + 1) + sumOver f (s + (k + 1)) b
    rw [ih b (s + 1)]
    show _ = f s + sumOver f (s + 1) k + sumOver f (s + (k + 1)) b
    rw [show s + 1 + k = s + (k + 1) by omega]
    omega

lemma sumOver_mono_count (f : Nat → Nat) (s a b : Nat) (h : a ≤ b) :
    sumOver f s a ≤ sumOver f s b := by
  have hb : b = a + (b - a) := by omega
  rw [hb, sumOver_split]
  omega

lemma sumOver_extract (f : Nat → Nat) (k : Nat) :
    ∀ (count s : Nat), s ≤ k → k < s + count →
      sumOver f s count = f k + sumOver (fun p => if p = k then 0 else f p) s count := by
  intro count
  induction count with
  | zero => intro s h1 h2; omega
  | succ c ih =>
    intro s h1 h2
    by_cases hs : s = k
    · subst hs
      show f s + sumOver f (s + 1) c = f s + ((if s = s then 0 else f s) + _)
      rw [if_pos rfl]
      have hc : sumOver f (s + 1) c = sumOver (fun p => if p = s then 0 else f p) (s + 1) c :=
        sumOver_congr _ _ c (s + 1) (fun p hp1 hp2 => by rw [if_neg (by omega)])
      omega
    · show f s + sumOver f (s + 1) c = f k + ((if s = k then 0 else f s) + _)
      rw [if_neg hs, ih (s + 1) (by omega) (by omega)]
      omega

lemma range_map_sum_eq_sumOver (f : Nat → Nat) :
    ∀ (k s : Nat), ((List.range k).map (fun j => f (j + s))).sum = sumOver f s k := by
  intro k
  induction k with
  | zero => intro s; rfl
  | succ n ih =>
    intro s
    rw [List.range_succ, List.map_append, List.sum_append, sumOver_succ_right, ih s]
    simp [Nat.add_comm]

lemma lookupRec_eq_none {α : Type} :
    ∀ (m : Rec α) (k : Nat), k ∉ keysOf m → lookupRec m k = none := by
  intro m
  induction m with
  | nil => intro k _; rfl
  | cons e rest ih =>
    intro k hk
    simp only [keysOf, List.map_cons, List.mem_cons] at hk
    push_neg at hk
    cases e with
    | mk k' v =>
        show (if k = k' then some v else lookupRec rest k) = none
        rw [if_neg (by simpa using hk.1), ih k (by simpa [keysOf] using hk.2)]

lemma entriesSum_eq_sumOver {α : Type} (f : α → Nat) :
    ∀ (m : Rec α) (N : Nat), (keysOf m).Nodup →
      (∀ p ∈ keysOf m, 1 ≤ p ∧ p ≤ N) →
      (m.map (fun e => f e.2)).sum
        = sumOver (fun p => optCount f (lookupRec m p)) 1 N := by
  intro m
  induction m with
  | nil =>
    intro N _ _
    rw [sumOver_zero_fn (fun p => optCount f (lookupRec ([] : Rec α) p)) N 1 (fun p => rfl)]
    rfl
  | cons e rest ih =>
    intro N hnodup hkeys
    cases e with
    | mk k v =>
        simp only [keysOf, List.map_cons, List.nodup_cons] at hnodup
        have hk : 1 ≤ k ∧ k ≤ N := hkeys k (by simp [keysOf])
        have hrest : ∀ p ∈ keysOf rest, 1 ≤ p ∧ p ≤ N := by
          intro p hp
          exact hkeys p (by simp [keysOf] at hp ⊢; exact Or.inr hp)
        have hlk : lookupRec rest k = none := lookupRec_eq_none rest k (by
          simpa [keysOf] using hnodup.1)
        have hfun : ∀ p, optCount f (lookupRec ((k, v) :: rest) p)
            = if p = k then f v else optCount f (lookupRec rest p) := by
          intro p
          show optCount f (if p = k then some v else lookupRec rest p) = _
          by_cases hp : p = k
          · rw [if_pos hp, if_pos hp]; rfl
          · rw [if_neg hp, if_neg hp]
        have hR : sumOver (fun p => optCount f (lookupRec ((k, v) :: rest) p)) 1 N
            = f v + sumOver (fun p => optCount f (lookupRec rest p)) 1 N := by
          rw [sumOver_congr _ _ N 1 (fun p _ _ => hfun p),
            sumOver_extract (fun p => if p = k then f v else optCount f (lookupRec rest p))
              k N 1 hk.1 (by omega), if_pos rfl]
          congr 1
          apply sumOver_congr
          intro p _ _
          by_cases hp : p = k
          · rw [if_pos hp, hp, hlk]; rfl
          · rw [if_neg hp, if_neg hp]
        rw [List.map_cons, List.sum_cons, ih N hnodup.2 hrest, hR]

lemma totalMatches_eq_sumOver (st : Store) (N : Nat)
    (hnodup : (keysOf st.pageMatches).Nodup)
    (hkeys : ∀ p ∈ keysOf st.pageMatches, 1 ≤ p ∧ p ≤ N) :
    totalMatches st
      = sumOver (fun p => (lookupRec st.pageMatches p).getD 0) 1 N := by
  have h := entriesSum_eq_sumOver (fun v => v) st.pageMatches N hnodup hkeys
  have h1 : (st.pageMatches.map (fun e => e.2)).sum = totalMatches st := rfl
  rw [h1] at h
  rw [h]
  apply sumOver_congr
  intro p _ _
  cases lookupRec st.pageMatches p <;> rfl

lemma getMatchCountBeforePage_eq_sumOver (st : Store) (p : Nat) :
    getMatchCountBeforePage st p
      = sumOver (fun q => (lookupRec st.pageMatches q).getD 0) 1 (p - 1) := by
  unfold getMatchCountBeforePage
  exact range_map_sum_eq_sumOver (fun q => (lookupRec st.pageMatches q).getD 0) (p - 1) 1

lemma findMatchPage_none (pm : Rec Nat) (t : Int) :
    ∀ (left page cum : Nat),
      (cum : Int) + (sumOver (fun p => (lookupRec pm p).getD 0) page left : Int) ≤ t →
      findMatchPage pm t left page cum = none := by
  intro left
  induction left with
  | zero => intro page cum _; rfl
  | succ l ih =>
    intro page cum h
    unfold findMatchPage
    have hs : sumOver (fun p => (lookupRec pm p).getD 0) page (l + 1)
        = (lookupRec pm page).getD 0
          + sumOver (fun p => (lookupRec pm p).getD 0) (page + 1) l := rfl
    rw [hs] at h
    push_cast at h
    rw [if_neg (by omega)]
    exact ih (page + 1) (cum + (lookupRec pm page).getD 0) (by push_cast; omega)

lemma findMatchPage_found (pm : Rec Nat) (t : Int) :
    ∀ (left page cum : Nat), (cum : Int) ≤ t →
      t < (cum : Int) + (sumOver (fun p => (lookupRec pm p).getD 0) page left : Int) →
      ∃ k, k < left ∧ findMatchPage pm t left page cum = some (page + k) ∧
        (cum : Int) + (sumOver (fun p => (lookupRec pm p).getD 0) page k : Int) ≤ t ∧
        t < (cum : Int) + (sumOver (fun p => (lookupRec pm p).getD 0) page k : Int)
          + ((lookupRec pm (page + k)).getD 0 : Int) := by
  intro left
  induction left with
  | zero =>
    intro page cum h1 h2
    exfalso
    have : sumOver (fun p => (lookupRec pm p).getD 0) page 0 = 0 := rfl
    rw [this] at h2
    omega
  | succ l ih =>
    intro page cum h1 h2
    by_cases hlt : t < (cum : Int) + ((lookupRec pm page).getD 0 : Int)
    · refine ⟨0, by omega, ?_, ?_, ?_⟩
      · unfold findMatchPage
        rw [if_pos (by push_cast; omega)]
        rw [Nat.add_zero]
      · show (cum : Int) + ((0 : Nat) : Int) ≤ t
        push_cast
        omega
      · show t < (cum : Int) + ((0 : Nat) : Int) + _
        rw [Nat.add_zero]
        push_cast
        omega
    · have hs : sumOver (fun p => (lookupRec pm p).getD 0) page (l + 1)
          = (lookupRec pm page).getD 0
            + sumOver (fun p => (lookupRec pm p).getD 0) (page + 1) l := rfl
      rw [hs] at h2
      push_cast at h2
      obtain ⟨k, hk, hfind, hlo, hhi⟩ :=
        ih (page + 1) (cum + (lookupRec pm page).getD 0) (by push_cast; omega)
          (by push_cast; omega)
      refine ⟨k + 1, by omega, ?_, ?_, ?_⟩
      · unfold findMatchPage
        rw [if_neg (by push_cast; omega)]
        rw [show page + (k + 1) = page + 1 + k by omega]
        exact hfind
      · have hs2 : sumOver (fun p => (lookupRec pm p).getD 0) page (k + 1)
            = (lookupRec pm page).getD 0
              + sumOver (fun p => (lookupRec pm p).getD 0) (page + 1) k := rfl
        rw [hs2]
        push_cast at hlo ⊢
        omega
      · have hs2 : sumOver (fun p => (lookupRec pm p).getD 0) page (k + 1)
            = (lookupRec pm page).getD 0
              + sumOver (fun p => (lookupRec pm p).getD 0) (page + 1) k := rfl
        rw [hs2, show page + (k + 1) = page + 1 + k by omega]
        push_cast at hhi ⊢
        omega

lemma getMatchCountBeforePage_add_count (st : Store) (q : Nat) (hq : 1 ≤ q) :
    getMatchCountBeforePage st q + (lookupRec st.pageMatches q).getD 0
      = sumOver (fun r => (lookupRec st.pageMatches r).getD 0) 1 q := by
  rw [getMatchCountBeforePage_eq_sumOver]
  have h : q = (q - 1) + 1 := by omega
  conv_rhs => rw [h]
  rw [sumOver_succ_right, show 1 + (q - 1) = q by omega]

lemma getMatchCountBeforePage_window_mono (st : Store) (a b : Nat)
    (ha : 1 ≤ a) (hab : a < b) :
    getMatchCountBeforePage st a + (lookupRec st.pageMatches a).getD 0
      ≤ getMatchCountBeforePage st b := by
  rw [getMatchCountBeforePage_add_count st a ha, getMatchCountBeforePage_eq_sumOver]
  exact sumOver_mono_count _ 1 a (b - 1) (by omega)

/-- C5: with a document loaded and every counted page inside
`[1, totalDocumentPages]`, `getPageForMatchIndex` finds, for every global
index in `[0, totalMatches)`, exactly the page whose cumulative window
contains the index — and returns null for every negative index and every
index at or beyond the total. -/
theorem page_for_match_index_range (st : Store) (N : Nat)
    (hN : st.totalDocumentPages = some N)
    (hkeys : ∀ p ∈ keysOf st.pageMatches, 1 ≤ p ∧ p ≤ N)
    (hnodup : (keysOf st.pageMatches).Nodup) :
    (∀ i : Int, 0 ≤ i → i < (totalMatches st : Int) →
      ∃ p, getPageForMatchIndex st i = some p ∧ 1 ≤ p ∧ p ≤ N ∧
        ((getMatchCountBeforePage st p : Int) ≤ i ∧
          i < (getMatchCountBeforePage st p : Int)
            + ((lookupRec st.pageMatches p).getD 0 : Int)) ∧
        (∀ q, 1 ≤ q → q ≤ N →
          (getMatchCountBeforePage st q : Int) ≤ i →
          i < (getMatchCountBeforePage st q : Int)
            + ((lookupRec st.pageMatches q).getD 0 : Int) → q = p)) ∧
    (∀ i : Int, i < 0 → getPageForMatchIndex st i = none) ∧
    (∀ i : Int, (totalMatches st : Int) ≤ i → getPageForMatchIndex st i = none) := by
  have htot := totalMatches_eq_sumOver st N hnodup hkeys
  refine ⟨?_, ?_, ?_⟩
  · intro i h0 hi
    have hN0 : N ≠ 0 := by
      intro h
      subst h
      rw [htot] at hi
      have : sumOver (fun p => (lookupRec st.pageMatches p).getD 0) 1 0 = 0 := rfl
      rw [this] at hi
      omega
    obtain ⟨k, hk, hfind, hlo, hhi⟩ :=
      findMatchPage_found st.pageMatches i N 1 0 (by omega)
        (by rw [htot] at hi; push_cast at hi ⊢; omega)
    refine ⟨1 + k, ?_, by omega, by omega, ⟨?_, ?_⟩, ?_⟩
    · unfold getPageForMatchIndex
      rw [if_neg (by omega), hN]
      dsimp only
      rw [if_neg hN0]
      exact hfind
    · rw [getMatchCountBeforePage_eq_sumOver, show 1 + k - 1 = k by omega]
      push_cast at hlo ⊢
      omega
    · rw [getMatchCountBeforePage_eq_sumOver, show 1 + k - 1 = k by omega]
      push_cast at hhi ⊢
      omega
    · intro q hq1 hqN hqlo hqhi
      by_contra hne
      rcases Nat.lt_trichotomy q (1 + k) with hlt | heq | hgt
      · have hm := getMatchCountBeforePage_window_mono st q (1 + k) hq1 hlt
        have hcb : (getMatchCountBeforePage st (1 + k) : Int) ≤ i := by
          rw [getMatchCountBeforePage_eq_sumOver, show 1 + k - 1 = k by omega]
          push_cast at hlo ⊢
          omega
        push_cast at hm
        omega
      · exact hne heq
      · have hm := getMatchCountBeforePage_window_mono st (1 + k) q (by omega) hgt
        have hcb : i < (getMatchCountBeforePage st (1 + k) : Int)
            + ((lookupRec st.pageMatches (1 + k)).getD 0 : Int) := by
          rw [getMatchCountBeforePage_eq_sumOver, show 1 + k - 1 = k by omega]
          push_cast at hhi ⊢
          omega
        push_cast at hm
        omega
  · intro i hi
    unfold getPageForMatchIndex
    rw [if_pos hi]
  · intro i hi
    unfold getPageForMatchIndex
    have h0 : (0 : Int) ≤ (totalMatches st : Int) := by positivity
    rw [if_neg (by omega), hN]
    dsimp only
    by_cases hN0 : N = 0
    · rw [if_pos hN0]
    · rw [if_neg hN0]
      apply findMatchPage_none
      rw [htot] at hi
      push_cast at hi ⊢
      omega

/-- Witness for C5: a two-page store with three matches; index 2 lands on
page 2, index -1 and index 3 land nowhere. -/
theorem page_for_match_index_range_witness :
    (getPageForMatchIndex storePm 2).isSome ∧
    getPageForMatchIndex storePm (-1) = none ∧
    getPageForMatchIndex storePm 3 = none := by
  obtain ⟨h1, h2, h3⟩ := page_for_match_index_range storePm 2 rfl
    (by decide) (by decide)
  obtain ⟨p, hp, -⟩ := h1 2 (by decide) (by decide)
  refine ⟨by rw [hp]; rfl, h2 (-1) (by decide), h3 3 (by decide)⟩

/-! ### Record updates and the background-scan fold -/

lemma lookupRec_setRec {α : Type} :
    ∀ (m : Rec α) (k : Nat) (v : α) (p : Nat),
      lookupRec (setRec m k v) p = if p = k then some v else lookupRec m p := by
  intro m
  induction m with
  | nil =>
    intro k v p
    by_cases hp : p = k <;> simp [setRec, lookupRec, hp]
  | cons e rest ih =>
    intro k v p
    cases e with
    | mk k' w =>
        show lookupRec
          (if k = k' then (k, v) :: rest
           else if k < k' then (k, v) :: (k', w) :: rest
           else (k', w) :: setRec rest k v) p = _
        by_cases h1 : k = k'
        · subst h1
          rw [if_pos rfl]
          by_cases hp : p = k <;> simp [lookupRec, hp]
        · rw [if_neg h1]
          by_cases h2 : k < k'
          · rw [if_pos h2]
            by_cases hp : p = k <;> simp [lookupRec, hp]
          · rw [if_neg h2]
            by_cases hp : p = k'
            · subst hp
              have hpk : ¬(p = k) := by omega
              simp [lookupRec, hpk]
            · simp only [lookupRec, if_neg hp, ih k v p]

lemma mem_keysOf_setRec {α : Type} :
    ∀ (m : Rec α) (k : Nat) (v : α) (p : Nat),
      p ∈ keysOf (setRec m k v) ↔ p = k ∨ p ∈ keysOf m := by
  intro m
  induction m with
  | nil => intro k v p; simp [setRec, keysOf]
  | cons e rest ih =>
    intro k v p
    cases e with
    | mk k' w =>
        show p ∈ keysOf
          (if k = k' then (k, v) :: rest
           else if k < k' then (k, v) :: (k', w) :: rest
           else (k', w) :: setRec rest k v) ↔ _
        by_cases h1 : k = k'
        · subst h1
          rw [if_pos rfl]
          simp only [keysOf, List.map_cons, List.mem_cons]
          tauto
        · rw [if_neg h1]
          by_cases h2 : k < k'
          · rw [if_pos h2]
            simp only [keysOf, List.map_cons, List.mem_cons]
          · rw [if_neg h2]
            simp only [keysOf, List.map_cons, List.mem_cons] at ih ⊢
            rw [ih k v p]
            tauto

lemma WFRec_setRec {α : Type} :
    ∀ (m : Rec α) (k : Nat) (v : α), WFRec m → WFRec (setRec m k v) := by
  intro m
  induction m with
  | nil => intro k v _; simp [setRec, WFRec, keysOf]
  | cons e rest ih =>
    intro k v hwf
    cases e with
    | mk k' w =>
        have hwf' : (keysOf rest).Pairwise (fun a b => a < b) :=
          (List.pairwise_cons.mp hwf).2
        have hlt : ∀ x ∈ keysOf rest, k' < x := (List.pairwise_cons.mp hwf).1
        show WFRec
          (if k = k' then (k, v) :: rest
           else if k < k' then (k, v) :: (k', w) :: rest
           else (k', w) :: setRec rest k v)
        by_cases h1 : k = k'
        · subst h1
          rw [if_pos rfl]
          exact List.pairwise_cons.mpr ⟨hlt, hwf'⟩
        · rw [if_neg h1]
          by_cases h2 : k < k'
          · rw [if_pos h2]
            refine List.pairwise_cons.mpr ⟨?_, List.pairwise_cons.mpr ⟨hlt, hwf'⟩⟩
            intro x hx
            simp [keysOf] at hx
            rcases hx with hx | hx
            · omega
            · have := hlt x (by simpa [keysOf] using hx)
              omega
          · rw [if_neg h2]
            refine List.pairwise_cons.mpr ⟨?_, ih k v hwf'⟩
            intro x hx
            rcases (mem_keysOf_setRec rest k v x).mp hx with hx | hx
            · omega
            · exact hlt x hx

lemma processSinglePage_fixed (doc : PdfDocument) (st : Store) (q : Nat) :
    (processSinglePage doc st q).submittedSearchTerm = st.submittedSearchTerm ∧
    (processSinglePage doc st q).pageMatches = st.pageMatches ∧
    (processSinglePage doc st q).fileData = st.fileData ∧
    (processSinglePage doc st q).totalDocumentPages = st.totalDocumentPages := by
  unfold processSinglePage
  cases doc.getTextContent q <;> exact ⟨rfl, rfl, rfl, rfl⟩

lemma processSinglePage_lookup_ne (doc : PdfDocument) (st : Store) (q p : Nat)
    (h : p ≠ q) :
    lookupRec (processSinglePage doc st q).pageJoinedTexts p
      = lookupRec st.pageJoinedTexts p := by
  unfold processSinglePage
  cases doc.getTextContent q with
  | none => rfl
  | some items =>
      show lookupRec (setRec st.pageJoinedTexts q _) p = _
      rw [lookupRec_setRec, if_neg h]

lemma processSinglePage_lookup_self (doc : PdfDocument) (st : Store) (q : Nat) :
    lookupRec (processSinglePage doc st q).pageJoinedTexts q
      = (match doc.getTextContent q with
         | some items => some (processTextItems items).joinedText
         | none => lookupRec st.pageJoinedTexts q) := by
  unfold processSinglePage
  cases doc.getTextContent q with
  | none => rfl
  | some items =>
      show lookupRec (setRec st.pageJoinedTexts q _) q = _
      rw [lookupRec_setRec, if_pos rfl]

lemma processSinglePage_wf (doc : PdfDocument) (st : Store) (q : Nat)
    (h : WFRec st.pageJoinedTexts) :
    WFRec (processSinglePage doc st q).pageJoinedTexts := by
  unfold processSinglePage
  cases doc.getTextContent q with
  | none => exact h
  | some items => exact WFRec_setRec _ q _ h

lemma processSinglePage_keys (doc : PdfDocument) (st : Store) (q p : Nat)
    (h : p ∈ keysOf (processSinglePage doc st q).pageJoinedTexts) :
    p = q ∨ p ∈ keysOf st.pageJoinedTexts := by
  unfold processSinglePage at h
  cases hd : doc.getTextContent q with
  | none => rw [hd] at h; exact Or.inr h
  | some items =>
      rw [hd] at h
      exact (mem_keysOf_setRec _ q _ p).mp h

lemma foldScan_fixed (doc : PdfDocument) :
    ∀ (ps : List Nat) (st : Store),
      (ps.foldl (processSinglePage doc) st).submittedSearchTerm
          = st.submittedSearchTerm ∧
      (ps.foldl (processSinglePage doc) st).pageMatches = st.pageMatches := by
  intro ps
  induction ps with
  | nil => intro st; exact ⟨rfl, rfl⟩
  | cons q rest ih =>
    intro st
    obtain ⟨h1, h2⟩ := ih (processSinglePage doc st q)
    obtain ⟨g1, g2, -, -⟩ := processSinglePage_fixed doc st q
    exact ⟨h1.trans g1, h2.trans g2⟩

lemma foldScan_lookup_not_mem (doc : PdfDocument) :
    ∀ (ps : List Nat) (st : Store) (p : Nat), p ∉ ps →
      lookupRec (ps.foldl (processSinglePage doc) st).pageJoinedTexts p
        = lookupRec st.pageJoinedTexts p := by
  intro ps
  induction ps with
  | nil => intro st p _; rfl
  | cons q rest ih =>
    intro st p hp
    simp only [List.mem_cons] at hp
    push_neg at hp
    rw [List.foldl_cons, ih (processSinglePage doc st q) p hp.2,
      processSinglePage_lookup_ne doc st q p hp.1]

lemma foldScan_lookup_mem (doc : PdfDocument) :
    ∀ (ps : List Nat) (st : Store) (p : Nat), ps.Nodup → p ∈ ps →
      lookupRec (ps.foldl (processSinglePage doc) st).pageJoinedTexts p
        = (match doc.getTextContent p with
           | some items => some (processTextItems items).joinedText
           | none => lookupRec st.pageJoinedTexts p) := by
  intro ps
  induction ps with
  | nil => intro st p _ hp; exact absurd hp (List.not_mem_nil p)
  | cons q rest ih =>
    intro st p hnd hp
    rw [List.nodup_cons] at hnd
    rw [List.foldl_cons]
    rcases List.mem_cons.mp hp with hpq | hpr
    · subst hpq
      rw [foldScan_lookup_not_mem doc rest (processSinglePage doc st p) p hnd.1]
      exact processSinglePage_lookup_self doc st p
    · rw [ih (processSinglePage doc st q) p hnd.2 hpr]
      by_cases hpq : p = q
      · subst hpq; exact absurd hpr hnd.1
      · cases hd : doc.getTextContent p with
        | none => exact processSinglePage_lookup_ne doc st q p hpq
        | some items => rfl

lemma foldScan_wf (doc : PdfDocument) :
    ∀ (ps : List Nat) (st : Store), WFRec st.pageJoinedTexts →
      WFRec (ps.foldl (processSinglePage doc) st).pageJoinedTexts := by
  intro ps
  induction ps with
  | nil => intro st h; exact h
  | cons q rest ih =>
    intro st h
    exact ih (processSinglePage doc st q) (processSinglePage_wf doc st q h)

lemma foldScan_keys (doc : PdfDocument) :
    ∀ (ps : List Nat) (st : Store) (p : Nat),
      p ∈ keysOf (ps.foldl (processSinglePage doc) st).pageJoinedTexts →
      p ∈ ps ∨ p ∈ keysOf st.pageJoinedTexts := by
  intro ps
  induction ps with
  | nil => intro st p h; exact Or.inr h
  | cons q rest ih =>
    intro st p h
    rw [List.foldl_cons] at h
    rcases ih (processSinglePage doc st q) p h with h' | h'
    · exact Or.inl (List.mem_cons.mpr (Or.inr h'))
    · rcases processSinglePage_keys doc st q p h' with h'' | h''
      · exact Or.inl (List.mem_cons.mpr (Or.inl h''))
      · exact Or.inr h''

lemma canProcessPages_term_nonempty (st : Store) (h : canProcessPages st = true) :
    jsTrim st.submittedSearchTerm ≠ [] := by
  unfold canProcessPages at h
  rw [Bool.and_eq_true, Bool.and_eq_true] at h
  have h2 := h.2
  intro hnil
  rw [List.isEmpty_iff.mpr hnil] at h2
  exact absurd h2 (by decide)

/-- C1: after a background scan over a document with `numPages` pages —
some pre-indexed, some decoded by the scan, some failing to decode — the
store's `totalMatches` equals the single-pass match total over all pages'
final joined texts with the same committed phrase, failed pages
contributing zero. -/
theorem background_scan_total_matches (doc : PdfDocument) (st : Store)
    (hcan : canProcessPages st = true)
    (hwf : WFRec st.pageJoinedTexts)
    (hkeys : ∀ p ∈ keysOf st.pageJoinedTexts, 1 ≤ p ∧ p ≤ doc.numPages) :
    totalMatches (processAllPagesForSearch doc st)
      = onePassTotalMatches (jsTrim st.submittedSearchTerm) (finalPageText doc st)
          doc.numPages := by
  have hne : jsTrim st.submittedSearchTerm ≠ [] := canProcessPages_term_nonempty st hcan
  set N := doc.numPages with hNdef
  set term := jsTrim st.submittedSearchTerm with htermdef
  set st1 : Store := { st with isProcessingAllPages := true } with hst1
  set pending := createPageProcessingPromises doc st1 with hpend
  set st2 := pending.foldl (processSinglePage doc) st1 with hst2
  have hst1txt : st1.pageJoinedTexts = st.pageJoinedTexts := rfl
  have hresult : processAllPagesForSearch doc st
      = { recomputeMatches st2 with isProcessingAllPages := false } := by
    unfold processAllPagesForSearch
    have hfalse : (!canProcessPages st) = false := by rw [hcan]; rfl
    rw [hfalse]
    rfl
  have htot : totalMatches (processAllPagesForSearch doc st)
      = totalMatches (recomputeMatches st2) := by
    rw [hresult]
    rfl
  have hterm2 : st2.submittedSearchTerm = st.submittedSearchTerm :=
    (foldScan_fixed doc pending st1).1
  have hne2 : jsTrim st2.submittedSearchTerm ≠ [] := by rw [hterm2]; exact hne
  have hpm : (recomputeMatches st2).pageMatches
      = st2.pageJoinedTexts.map (fun e => (e.1, (computeRanges term e.2).length)) := by
    rw [recompute_nonempty_eq st2 hne2]
    rw [(ensure_fields _).1]
    rw [hterm2]
  have hsum1 : totalMatches (recomputeMatches st2)
      = (st2.pageJoinedTexts.map
          (fun e => (computeRanges term e.2).length)).sum := by
    unfold totalMatches
    rw [hpm, List.map_map]
    rfl
  have hmem_pending : ∀ p, p ∈ pending ↔
      ((1 ≤ p ∧ p ≤ N) ∧ truthyStr (lookupRec st.pageJoinedTexts p) = false) := by
    intro p
    rw [hpend]
    unfold createPageProcessingPromises
    rw [List.mem_filter]
    simp only [List.mem_map, List.mem_range, hst1txt, Bool.not_eq_eq_eq_not, Bool.not_true]
    constructor
    · rintro ⟨⟨j, hj, rfl⟩, hf⟩
      exact ⟨⟨by omega, by omega⟩, hf⟩
    · rintro ⟨⟨h1, h2⟩, hf⟩
      exact ⟨⟨p - 1, by omega, by omega⟩, hf⟩
  have hpnd : pending.Nodup := by
    rw [hpend]
    unfold createPageProcessingPromises
    apply List.Nodup.filter
    exact List.Nodup.map (fun a b h => by omega) (List.nodup_range N)
  have hwf2 : WFRec st2.pageJoinedTexts := by
    rw [hst2]
    exact foldScan_wf doc pending st1 (by rw [hst1txt]; exact hwf)
  have hnodup2 : (keysOf st2.pageJoinedTexts).Nodup :=
    List.Pairwise.imp (fun hab => Nat.ne_of_lt hab) hwf2
  have hkeys2 : ∀ p ∈ keysOf st2.pageJoinedTexts, 1 ≤ p ∧ p ≤ N := by
    intro p hp
    rw [hst2] at hp
    rcases foldScan_keys doc pending st1 p hp with h | h
    · exact ((hmem_pending p).mp h).1
    · rw [hst1txt] at h
      exact hkeys p h
  have hlook : ∀ p, 1 ≤ p → p ≤ N →
      lookupRec st2.pageJoinedTexts p = finalPageText doc st p := by
    intro p h1 h2
    by_cases ht : truthyStr (lookupRec st.pageJoinedTexts p) = true
    · have hnp : p ∉ pending := by
        intro hmem
        rw [((hmem_pending p).mp hmem).2] at ht
        exact absurd ht (by decide)
      rw [hst2, foldScan_lookup_not_mem doc pending st1 p hnp, hst1txt]
      unfold finalPageText
      rw [if_pos ht]
    · have hmem : p ∈ pending := (hmem_pending p).mpr
        ⟨⟨h1, h2⟩, Bool.not_eq_true _ ▸ (Bool.eq_false_iff.mpr (fun hc => ht hc))⟩
      rw [hst2, foldScan_lookup_mem doc pending st1 p hpnd hmem]
      unfold finalPageText
      rw [if_neg ht]
  rw [htot, hsum1,
    entriesSum_eq_sumOver (fun t => (computeRanges term t).length)
      st2.pageJoinedTexts N hnodup2 hkeys2]
  have honep : onePassTotalMatches term (finalPageText doc st) N
      = sumOver
          (fun q => optCount (fun t => (computeRanges term t).length)
            (finalPageText doc st q)) 1 N := by
    unfold onePassTotalMatches
    have hcg : (fun j =>
          match finalPageText doc st (j + 1) with
          | some t => (computeRanges term t).length
          | none => 0)
        = (fun j => optCount (fun t => (computeRanges term t).length)
            (finalPageText doc st (j + 1))) := by
      funext j
      cases finalPageText doc st (j + 1) <;> rfl
    rw [hcg]
    exact range_map_sum_eq_sumOver
      (fun q => optCount (fun t => (computeRanges term t).length)
        (finalPageText doc st q)) N 1
  rw [honep]
  apply sumOver_congr
  intro p hp1 hp2
  rw [hlook p hp1 (by omega)]

/-- Witness for C1: a three-page document with page 1 pre-indexed, page 2
decoded by the scan and page 3 failing to decode; both sides count two
matches of `"ab"`. -/
theorem background_scan_total_matches_witness :
    totalMatches (processAllPagesForSearch docW storeScan) = 2 ∧
    onePassTotalMatches (jsTrim storeScan.submittedSearchTerm)
      (finalPageText docW storeScan) docW.numPages = 2 := by
  have h := background_scan_total_matches docW storeScan (by decide)
    (by unfold WFRec; decide) (by decide)
  refine ⟨?_, by decide⟩
  rw [h]
  decide

end Pdf
